import Mathlib

/-!
# Verification of `count_percentile.py`

A shallow embedding of the score-parsing, leaderboard-loading,
direction-inference, percentile-calculation and row/column-sweep logic of
`count_percentile.py`, together with theorems settling the specification
claims about that code.

Modelling conventions:
* Python floats are modelled by `PyFloat`: a finite value is an exact
  rational, and the special values `inf`, `-inf`, `nan` are explicit
  constructors.
* Python strings are modelled as lists of characters (`PyStr`), with the
  string operations the code uses (`strip`, `lower`, `startswith`,
  `split(',')[0]`, membership) defined structurally so that they evaluate.
* Spreadsheet / CSV cells are modelled by `Cell`: missing, numeric, text,
  or date-valued.
* `pandas` operations are modelled on lists: `dropna` as a filter,
  `pd.to_numeric(errors = coerce)` as an optional conversion per cell,
  `sort_values` as a sort, `head` / `tail` as `take` / `drop`.
-/

/-- An idealised Python float value: a finite value (modelled as an exact
rational) or one of the special values `inf`, `-inf`, `nan`. -/
inductive PyFloat where
  | finite (q : ℚ)
  | inf
  | negInf
  | nan
deriving DecidableEq

/-- Whether a Python float is finite (neither infinite nor NaN). -/
def PyFloat.isFinite : PyFloat → Bool
  | .finite _ => true
  | _ => false

/-- Python text, modelled as a list of characters. -/
abbrev PyStr := List Char

/-- The whitespace characters removed by Python's `str.strip()`
(the forms that occur in spreadsheet data). -/
def isSpaceChar (c : Char) : Bool :=
  c == ' ' || c == '\t' || c == '\n' || c == '\r'

/-- Python `str.strip()`: remove leading and trailing whitespace. -/
def pyStrip (s : PyStr) : PyStr :=
  ((s.dropWhile isSpaceChar).reverse.dropWhile isSpaceChar).reverse

/-- ASCII lowercasing of one character (Python `str.lower()` on the
ASCII texts handled here). -/
def toLowerChar (c : Char) : Char :=
  if 'A' ≤ c ∧ c ≤ 'Z' then Char.ofNat (c.toNat + 32) else c

/-- Python `str.lower()`. -/
def pyLower (s : PyStr) : PyStr := s.map toLowerChar

/-- Python `str.startswith(pattern)`. -/
def startsWithChars : PyStr → PyStr → Bool
  | _, [] => true
  | [], _ :: _ => false
  | c :: s, p :: ps => c == p && startsWithChars s ps

/-- Models `is_url` (count_percentile.py, lines 10-14): the text starts with
`http://`, `https://` or `www.`.  (The `isinstance(text, str)` guard always
holds at the one call site, where the argument is `str(...)`.) -/
def is_url (s : PyStr) : Bool :=
  startsWithChars s ("http://".data) ||
  startsWithChars s ("https://".data) ||
  startsWithChars s ("www.".data)

/-- The null-sentinel texts of `parse_score_value`
(line 38: `['', 'n/a', 'na', 'null', 'none']`). -/
def null_sentinels : List PyStr :=
  [("".data), ("n/a".data), ("na".data), ("null".data), ("none".data)]

/-- Whether the text contains a comma (`',' in score_str`). -/
def containsComma (s : PyStr) : Bool := s.any (fun c => c == ',')

/-- Computes `score_str.split(',')[0]`: the segment before the first comma. -/
def firstCommaSegment (s : PyStr) : PyStr := s.takeWhile (fun c => c != ',')

/-- The value of a (decimal) digit character. -/
def digitsVal (l : PyStr) : ℕ := l.foldl (fun a c => 10 * a + (c.toNat - 48)) 0

/-- Parse an unsigned Python decimal float literal
(`digits [ . digits ] [ (e|E) [sign] digits ]`, at least one mantissa digit),
consuming the whole text.  With integer part `i`, fraction digits `f` of
width `w` and signed exponent `x`, the value is the exact rational
`(i + f / 10 ^ w) * 10 ^ x`; it is assembled here from integer arithmetic
and `Rat.divInt` (one division of the integer numerator by the power-of-ten
denominator) so that the parser evaluates definitionally. -/
def parseDecimal (cs : PyStr) : Option ℚ :=
  let ip := cs.takeWhile Char.isDigit
  let r1 := cs.dropWhile Char.isDigit
  let fp : PyStr :=
    match r1 with
    | '.' :: rest => rest.takeWhile Char.isDigit
    | _ => []
  let r2 : PyStr :=
    match r1 with
    | '.' :: rest => rest.dropWhile Char.isDigit
    | _ => r1
  if ip.isEmpty && fp.isEmpty then none
  else
    let mantNum : ℕ := digitsVal ip * 10 ^ fp.length + digitsVal fp
    let mantDen : ℕ := 10 ^ fp.length
    match r2 with
    | [] => some (Rat.divInt mantNum mantDen)
    | e :: rest =>
      if e == 'e' || e == 'E' then
        let expNeg : Bool := match rest with | '-' :: _ => true | _ => false
        let rest2 : PyStr := match rest with | '-' :: r => r | '+' :: r => r | r => r
        let ed := rest2.takeWhile Char.isDigit
        if ed.isEmpty || !(rest2.dropWhile Char.isDigit).isEmpty then none
        else if expNeg then
          some (Rat.divInt mantNum (mantDen * 10 ^ digitsVal ed))
        else some (Rat.divInt (mantNum * 10 ^ digitsVal ed) mantDen)
      else none

/-- Python's `float()` builtin on a string: optional surrounding whitespace,
optional sign, then `inf`, `infinity` or `nan` (case-insensitively) or a
decimal literal.  Returns `none` where `float()` raises `ValueError`.
Underscore digit separators and overflow of huge finite literals to infinity
are not modelled; no claim depends on them. -/
def pythonFloat (s : PyStr) : Option PyFloat :=
  let t := pyStrip s
  let neg : Bool := match t with | '-' :: _ => true | _ => false
  let body : PyStr := match t with | '-' :: r => r | '+' :: r => r | r => r
  let low := pyLower body
  if low == ("inf".data) || low == ("infinity".data) then
    some (if neg then .negInf else .inf)
  else if low == ("nan".data) then some .nan
  else
    match parseDecimal body with
    | some q => some (.finite (if neg then -q else q))
    | none => none

/-- One spreadsheet / CSV cell: missing, a numeric value, text, or a date
(what `pd.read_excel` yields for a date-formatted cell). -/
inductive Cell where
  | blank
  | num (f : PyFloat)
  | text (s : PyStr)
  | date (y m d : ℕ)
deriving DecidableEq

/-- Models `pd.isna` on one cell: missing cells and NaN floats are NA. -/
def cellIsNA : Cell → Bool
  | .blank => true
  | .num f => f == .nan
  | _ => false

/-- Decimal digits of a natural number, zero-padded to width `w`. -/
def padDigits (w : ℕ) (n : ℕ) : PyStr :=
  let ds := Nat.toDigits 10 n
  List.replicate (w - ds.length) '0' ++ ds

/-- Models `strftime('%Y-%m-%d')`: the `YYYY-MM-DD` form of a date. -/
def dateKey (y m d : ℕ) : PyStr :=
  padDigits 4 y ++ ("-".data) ++ padDigits 2 m ++ ("-".data) ++ padDigits 2 d

/-- The text part of `parse_score_value` (count_percentile.py, lines 33-57),
applied to the already-stripped `score_str`: skip URLs, skip empty text and
null sentinels, then parse either the segment before the first comma or the
whole text as a float. -/
def parse_text_score (score_str : PyStr) : Option PyFloat :=
  if is_url score_str then none
  else if score_str.isEmpty || null_sentinels.contains (pyLower score_str) then
    none
  else if containsComma score_str then
    pythonFloat (pyStrip (firstCommaSegment score_str))
  else pythonFloat score_str

/-- Models `parse_score_value` (count_percentile.py, lines 16-57).
* A missing cell (`pd.isna`) yields no value.
* A numeric cell `f` is first rendered by `str(...)`; for a non-NaN float
  that text round-trips through `float()` and is never a URL, a sentinel or
  a comma-bearing text, so the cell parses back to `f` itself.
* A text cell goes through the stripped-text pipeline.
* A date cell renders as `YYYY-MM-DD 00:00:00` via `str(...)`, which fails
  the float parse, so it yields no value through the same pipeline. -/
def parse_score_value : Cell → Option PyFloat
  | .blank => none
  | .num f => if f == .nan then none else some f
  | .text s => parse_text_score (pyStrip s)
  | .date y m d => parse_text_score (pyStrip (dateKey y m d ++ (" 00:00:00".data)))

/-- A loaded leaderboard row in the ordinary, fully numeric case:
a (rank, score) pair of finite numeric values.  (A CSV whose rank column is
textual survives loading — see `load_leaderboard` — but then
`sort_values('Rank')` on mixed types raises inside `calculate_percentile`'s
`try` block and the calculation returns `None`; that degenerate shape is not
modelled here.) -/
abbrev Leaderboard := List (ℚ × ℚ)

/-- Insert one row into a rank-sorted list (auxiliary for `sortByRank`). -/
def insertByRank (e : ℚ × ℚ) : Leaderboard → Leaderboard
  | [] => [e]
  | x :: xs => if e.1 ≤ x.1 then e :: x :: xs else x :: insertByRank e xs

/-- Models `leaderboard_df.sort_values('Rank')` (line 251): sort rows by rank
ascending.  (`pandas` uses an unstable quicksort; the order among equal ranks
is unspecified, and any rank-ascending order is a faithful model.) -/
def sortByRank : Leaderboard → Leaderboard
  | [] => []
  | e :: xs => insertByRank e (sortByRank xs)

/-- Models `DataFrame.head n`: the first `n` rows (all of them if fewer). -/
def pandasHead (n : ℕ) (l : List α) : List α := l.take n

/-- Models `DataFrame.tail n`: the last `n` rows (all of them if fewer). -/
def pandasTail (n : ℕ) (l : List α) : List α := l.drop (l.length - n)

/-- Models `Series.mean()`: sum divided by length. -/
def listMean (l : List ℚ) : ℚ := l.sum / l.length

/-- The Score column of a leaderboard (line 237-238; the values are already
numeric after loading, so `to_numeric` / `dropna` leave them unchanged). -/
def lbScores (lb : Leaderboard) : List ℚ := lb.map Prod.snd

/-- Computes `first_scores` (line 252): scores of the first 10 rows by rank. -/
def topScores (lb : Leaderboard) : List ℚ :=
  lbScores (pandasHead 10 (sortByRank lb))

/-- Computes `last_scores` (line 253): scores of the last 10 rows by rank. -/
def botScores (lb : Leaderboard) : List ℚ :=
  lbScores (pandasTail 10 (sortByRank lb))

/-- Direction inference (count_percentile.py, lines 249-256):
`higher_is_better = first_scores.mean() > last_scores.mean()
 if len(first_scores) > 0 and len(last_scores) > 0 else True`. -/
def higherIsBetter (lb : Leaderboard) : Bool :=
  if 0 < (topScores lb).length ∧ 0 < (botScores lb).length then
    if listMean (topScores lb) > listMean (botScores lb) then true else false
  else true

/-- Models `scipy.stats.percentileofscore(a, score, kind='rank')`:
with `left` the number of entries `< score` and `right` the number of
entries `≤ score`, the result is `(left + right + plus1) * (50 / n)` where
`plus1` is 1 exactly when `score` occurs in `a`. -/
def percentileofscore (a : List ℚ) (score : ℚ) : ℚ :=
  let n := a.length
  let left := a.countP (fun s => decide (s < score))
  let right := a.countP (fun s => decide (s ≤ score))
  ((left : ℚ) + (right : ℚ) + (if left < right then 1 else 0)) * (50 / (n : ℚ))

/-- Python's builtin `round()` to an integer: round half to even. -/
def pythonRound (q : ℚ) : ℤ :=
  if q - ⌊q⌋ < 1/2 then ⌊q⌋
  else if (1 : ℚ)/2 < q - ⌊q⌋ then ⌊q⌋ + 1
  else if ⌊q⌋ % 2 = 0 then ⌊q⌋ else ⌊q⌋ + 1

/-- Models `calculate_percentile` (count_percentile.py, lines 223-284) for a finite
numeric score against a numeric leaderboard: `None` when the leaderboard has
no scores; otherwise infer the direction, take
`percentileofscore(scores, our_score, kind='rank')`, subtract one and floor
at 0 when higher is better or subtract from 100 when lower is better, round
half-to-even, and clamp into [1, 100]. -/
def calculate_percentile (our_score : ℚ) (lb : Leaderboard) : Option ℤ :=
  if (lbScores lb).length = 0 then none
  else
    let percentile : ℚ :=
      if higherIsBetter lb then
        max 0 (percentileofscore (lbScores lb) our_score - 1)
      else 100 - percentileofscore (lbScores lb) our_score
    some (max 1 (min 100 (pythonRound percentile)))

/-- Models `calculate_percentile` as invoked by the sweep on a parsed cell value,
which `float()` may also make `inf`, `-inf` or `nan`.  For a non-finite
score the Python code still runs; with every leaderboard score finite:
* `inf`: both counts equal `n`, so `P = 100`; higher-is-better gives
  `round(max(0, 99)) = 99`, lower-is-better gives `round(0)` clamped to 1.
* `-inf`: both counts are 0, so `P = 0`; higher-is-better gives
  `round(max(0, -1)) = 0` clamped to 1, lower-is-better gives 100.
* `nan`: `percentileofscore` propagates NaN; in the higher-is-better branch
  Python's `max(0, nan)` returns its first argument 0, so the result is 1,
  while in the lower-is-better branch `round(100 - nan)` raises
  `ValueError`, the `except` catches it, and the result is `None`. -/
def calcPF : PyFloat → Leaderboard → Option ℤ
  | .finite q, lb => calculate_percentile q lb
  | .inf, lb =>
    if (lbScores lb).length = 0 then none
    else some (if higherIsBetter lb then 99 else 1)
  | .negInf, lb =>
    if (lbScores lb).length = 0 then none
    else some (if higherIsBetter lb then 1 else 100)
  | .nan, lb =>
    if (lbScores lb).length = 0 then none
    else if higherIsBetter lb then some 1 else none

/-- Modelled from the spec's words (§4.3 Direction Inference), for comparison
with the source-derived `higherIsBetter`: sort rows by rank ascending; take
the mean score of the first 10 rows and of the last 10 rows; if either group
is empty default to higher-is-better; otherwise higher is better exactly when
the top mean is strictly greater than the bottom mean. -/
def specDirection (lb : Leaderboard) : Bool :=
  let rows := sortByRank lb
  let top := rows.take 10
  let bottom := rows.drop (rows.length - 10)
  if top.isEmpty || bottom.isEmpty then true
  else decide (listMean (top.map Prod.snd) > listMean (bottom.map Prod.snd))

/-- Modelled from the spec's words (§4.4 Percentile Calculator), for
comparison with the source-derived `calculate_percentile`: with
`P = percentileofscore(scores, our_score, kind='rank')`, the result is the
clamp into [1, 100] of the half-to-even rounding of `max(0, P - 1)` when
higher is better and of `100 - P` when lower is better. -/
def specResult (scores : List ℚ) (x : ℚ) (hib : Bool) : ℤ :=
  let P := percentileofscore scores x
  let raw : ℚ := if hib then max 0 (P - 1) else 100 - P
  max 1 (min 100 (pythonRound raw))

/-- Models `pd.to_numeric(x, errors='coerce')` on one cell, combined with the
`dropna` that follows it in the loader: `some` a non-NaN float when the cell
coerces, `none` when it is missing, non-numeric, or coerces to NaN.
(A date cell never occurs in a CSV-loaded column — `read_csv` does not parse
dates — and is treated as non-numeric.) -/
def toNumericCoerce : Cell → Option PyFloat
  | .blank => none
  | .num f => if f == .nan then none else some f
  | .text s =>
    match pythonFloat (pyStrip s) with
    | some f => if f == .nan then none else some f
    | none => none
  | .date _ _ _ => none

/-- One leaderboard CSV as `read_csv` delivers it: whether the `Rank` and
`Score` columns are present, and the raw (rank cell, score cell) rows. -/
structure RawLeaderboard where
  hasRankCol : Bool
  hasScoreCol : Bool
  rows : List (Cell × Cell)

/-- The per-file leaderboard loading of `convert_scores_to_percentiles`
(count_percentile.py, lines 88-118): reject a file without a `Rank` or
`Score` column; drop rows whose rank is NA; coerce scores to numbers and
drop rows whose score does not coerce; reject the file if no row survives.
A surviving row keeps its rank cell as read (which may be non-numeric text)
and its coerced numeric score. -/
def load_leaderboard (raw : RawLeaderboard) : Option (List (Cell × PyFloat)) :=
  if !raw.hasRankCol then none
  else if !raw.hasScoreCol then none
  else
    let withRank := raw.rows.filter (fun p => !cellIsNA p.1)
    let survivors := withRank.filterMap
      (fun p => (toNumericCoerce p.2).map (fun f => (p.1, f)))
    if survivors.length = 0 then none else some survivors

/-- The warnings the sweep prints that the claims are about. -/
inductive LogEvent where
  | missingLeaderboard (competition : PyStr)
deriving DecidableEq

/-- Python `str(...)` on a non-NaN float competition cell (`str(2024.0)` is
`"2024.0"`, `str(float('inf'))` is `"inf"`).  A non-integral float prints its
shortest decimal form; that case is approximated by the rational's
`num/den` form here — no claim depends on it, since competition keys are
text or dates. -/
def pyNumStr : PyFloat → PyStr
  | .inf => ("inf".data)
  | .negInf => ("-inf".data)
  | .nan => ("nan".data)
  | .finite q =>
    if q.den = 1 then
      (if q.num < 0 then ('-' :: Nat.toDigits 10 q.num.natAbs)
       else Nat.toDigits 10 q.num.natAbs) ++ (".0".data)
    else
      (if q.num < 0 then ('-' :: Nat.toDigits 10 q.num.natAbs)
       else Nat.toDigits 10 q.num.natAbs) ++ ("/".data) ++ Nat.toDigits 10 q.den

/-- The competition identifier of one data row (count_percentile.py, lines
139-152): `None` when the competition cell is NA (the row is skipped);
a date cell is rendered as `YYYY-MM-DD`; anything else is rendered by
`str(...)`. -/
def competitionKey : Cell → Option PyStr
  | .blank => none
  | .num f => if f == .nan then none else some (pyNumStr f)
  | .text s => some s
  | .date y m d => some (dateKey y m d)

/-- The first result column of the sweep (line 128: `start_col = 11`). -/
def start_col : ℕ := 11

/-- The last result column of the sweep (line 129:
`end_col = min(88, len(df.columns) - 1)`). -/
def resultEndCol (table : List (List Cell)) : ℕ :=
  min 88 ((table.headD []).length - 1)

/-- The per-cell step of the sweep (lines 168-185): parse the raw cell;
on success compute its percentile; only when both succeed overwrite the
cell with the integer percentile, otherwise keep the original value. -/
def processCell (lb : Leaderboard) (c : Cell) : Cell :=
  match parse_score_value c with
  | none => c
  | some f =>
    match calcPF f lb with
    | none => c
    | some p => Cell.num (.finite (p : ℚ))

/-- The column loop of the sweep (lines 164-185), carrying the running
column index `j`: process every cell whose column index lies in
`[start_col, endCol]` and keep all other cells. -/
def processCells (lb : Leaderboard) (endCol : ℕ) : ℕ → List Cell → List Cell
  | _, [] => []
  | j, c :: cs =>
    (if start_col ≤ j ∧ j ≤ endCol then processCell lb c else c) ::
      processCells lb endCol (j + 1) cs

/-- The per-row step of the sweep (lines 137-185): read the competition cell
(column index 4); skip the row when it is NA; warn and skip the row when no
leaderboard is loaded for it; otherwise run the column loop over the row.
Returns the updated row and the warnings it printed. -/
def processRow (lbs : List (PyStr × Leaderboard)) (endCol : ℕ)
    (row : List Cell) : List Cell × List LogEvent :=
  match competitionKey (row.getD 4 Cell.blank) with
  | none => (row, [])
  | some k =>
    match lbs.lookup k with
    | none => (row, [LogEvent.missingLeaderboard k])
    | some lb => (processCells lb endCol 0 row, [])

/-- The row loop of the sweep, carrying the running row index: the first two
rows (indices 0 and 1) are headers and are copied unchanged; every later row
goes through `processRow`. -/
def sweepRows (lbs : List (PyStr × Leaderboard)) (endCol : ℕ) :
    ℕ → List (List Cell) → List (List Cell) × List LogEvent
  | _, [] => ([], [])
  | idx, row :: rest =>
    let step := if idx < 2 then (row, ([] : List LogEvent))
                else processRow lbs endCol row
    let tail := sweepRows lbs endCol (idx + 1) rest
    (step.1 :: tail.1, step.2 ++ tail.2)

/-- The in-memory result of `convert_scores_to_percentiles`
(count_percentile.py, lines 137-185), given the loaded leaderboards and the
`SCORES` sheet: the transformed table and the missing-leaderboard warnings,
in row order. -/
def convert_scores_to_percentiles (lbs : List (PyStr × Leaderboard))
    (table : List (List Cell)) : List (List Cell) × List LogEvent :=
  sweepRows lbs (resultEndCol table) 0 table

/-! ## Helper lemmas -/

theorem insertByRank_length (e : ℚ × ℚ) (l : Leaderboard) :
    (insertByRank e l).length = l.length + 1 := by
  induction l with
  | nil => rfl
  | cons x xs ih => by_cases h : e.1 ≤ x.1 <;> simp [insertByRank, h, ih]

theorem sortByRank_length (l : Leaderboard) :
    (sortByRank l).length = l.length := by
  induction l with
  | nil => rfl
  | cons x xs ih => simp [sortByRank, insertByRank_length, ih]

theorem pythonRound_intCast (z : ℤ) : pythonRound (z : ℚ) = z := by
  norm_num [pythonRound]

theorem sum_lt_length_mul {l : List ℚ} {a : ℚ} (hne : l ≠ [])
    (h : ∀ b ∈ l, b < a) : l.sum < a * l.length := by
  induction l with
  | nil => simp at hne
  | cons x xs ih =>
    rcases eq_or_ne xs [] with rfl | hxs
    · simpa using h x (by simp)
    · have hx := h x (by simp)
      have hxs2 := ih hxs (fun b hb => h b (by simp [hb]))
      simp only [List.sum_cons, List.length_cons]
      push_cast
      linarith

theorem length_mul_lt_sum {l : List ℚ} {a : ℚ} (hne : l ≠ [])
    (h : ∀ b ∈ l, a < b) : a * l.length < l.sum := by
  induction l with
  | nil => simp at hne
  | cons x xs ih =>
    rcases eq_or_ne xs [] with rfl | hxs
    · simpa using h x (by simp)
    · have hx := h x (by simp)
      have hxs2 := ih hxs (fun b hb => h b (by simp [hb]))
      simp only [List.sum_cons, List.length_cons]
      push_cast
      linarith

theorem listMean_lt {l : List ℚ} {a : ℚ} (hne : l ≠ [])
    (h : ∀ b ∈ l, b < a) : listMean l < a := by
  have hpos : (0 : ℚ) < l.length := by
    have := List.length_pos.mpr hne
    exact_mod_cast this
  rw [listMean, div_lt_iff₀ hpos]
  exact sum_lt_length_mul hne h

theorem lt_listMean {l : List ℚ} {a : ℚ} (hne : l ≠ [])
    (h : ∀ b ∈ l, a < b) : a < listMean l := by
  have hpos : (0 : ℚ) < l.length := by
    have := List.length_pos.mpr hne
    exact_mod_cast this
  rw [listMean, lt_div_iff₀ hpos]
  exact length_mul_lt_sum hne h

/-! ## Claims about the score parser -/

/-- Claim C4: For every cell value that is missing, whose trimmed text equals
(case-insensitively) one of the null sentinels "", "n/a", "na", "null",
"none", or whose text begins with http://, https:// or www., the score
parser returns no value. -/
theorem parse_score_value_null_or_url (c : Cell)
    (h : c = Cell.blank ∨ c = Cell.num PyFloat.nan ∨
      ∃ s, c = Cell.text s ∧
        (null_sentinels.contains (pyLower (pyStrip s)) = true ∨
         is_url (pyStrip s) = true)) :
    parse_score_value c = none := by
  rcases h with rfl | rfl | ⟨s, rfl, hs | hs⟩
  · rfl
  · rfl
  · have hs2 : pyLower (pyStrip s) ∈ null_sentinels := by simpa using hs
    by_cases hu : is_url (pyStrip s)
    · simp [parse_score_value, parse_text_score, hu]
    · simp [parse_score_value, parse_text_score, hu, hs2]
  · simp [parse_score_value, parse_text_score, hs]

theorem parse_score_value_null_or_url_w :
    parse_score_value (Cell.text ((" N/A ".data))) = none ∧
    parse_score_value (Cell.text (("www.kaggle.com".data))) = none :=
  ⟨parse_score_value_null_or_url _ (Or.inr (Or.inr ⟨_, rfl, Or.inl (by decide)⟩)),
   parse_score_value_null_or_url _ (Or.inr (Or.inr ⟨_, rfl, Or.inr (by decide)⟩))⟩

/-- Claim C5: For every non-sentinel, non-URL text containing a comma, the
score parser parses only the segment before the first comma as a float and
returns no value if that parse fails; in particular "0.85, ignore this"
parses to 0.85, "0.85" parses to 0.85, and "abc" parses to no value. -/
theorem parse_score_value_comma (s : PyStr)
    (h1 : is_url (pyStrip s) = false)
    (h2 : (pyStrip s).isEmpty = false)
    (h3 : null_sentinels.contains (pyLower (pyStrip s)) = false)
    (h4 : containsComma (pyStrip s) = true) :
    parse_score_value (Cell.text s) =
      pythonFloat (pyStrip (firstCommaSegment (pyStrip s))) ∧
    parse_score_value (Cell.text (("0.85, ignore this".data))) =
      some (PyFloat.finite (17/20)) ∧
    parse_score_value (Cell.text (("0.85".data))) =
      some (PyFloat.finite (17/20)) ∧
    parse_score_value (Cell.text (("abc".data))) = none := by
  have h85 : (17/20 : ℚ) = Rat.divInt 17 20 := by
    rw [Rat.divInt_eq_div]; norm_num
  have h3m : pyLower (pyStrip s) ∉ null_sentinels := by simpa using h3
  refine ⟨?_, ?_, ?_, by decide⟩
  · simp [parse_score_value, parse_text_score, h1, h2, h3m, h4]
  · rw [h85]; decide
  · rw [h85]; decide

theorem parse_score_value_comma_w :
    parse_score_value (Cell.text (("1,2".data))) =
      pythonFloat (pyStrip (firstCommaSegment (pyStrip (("1,2".data))))) :=
  (parse_score_value_comma (("1,2".data))
    (by decide) (by decide) (by decide) (by decide)).1

/-- Claim C6, counterexample: The claim that the parser never returns an
infinite or NaN number fails on the text "inf": the parser returns the
non-finite value +infinity there. -/
theorem parse_score_value_inf_cex :
    parse_score_value (Cell.text (("inf".data))) = some PyFloat.inf ∧
    PyFloat.isFinite PyFloat.inf = false :=
  ⟨by decide, rfl⟩

/-- Claim C6, amended: The parser returns either a numeric value or no
value, but the value is not always finite: the texts "inf", "-inf" and
"nan" parse to +infinity, -infinity and NaN respectively. -/
theorem parse_score_value_nonfinite :
    parse_score_value (Cell.text (("inf".data))) = some PyFloat.inf ∧
    parse_score_value (Cell.text (("-inf".data))) = some PyFloat.negInf ∧
    parse_score_value (Cell.text (("nan".data))) = some PyFloat.nan ∧
    PyFloat.isFinite PyFloat.inf = false ∧
    PyFloat.isFinite PyFloat.nan = false :=
  ⟨by decide, by decide, by decide, rfl, rfl⟩

/-! ## Claims about direction inference -/

/-- Claim C3: The higher-is-better direction is inferred by sorting rows by
rank ascending and comparing the mean score of the first 10 rows against
the mean score of the last 10 rows (fewer if the leaderboard is smaller):
higher-is-better holds iff the top mean is strictly greater than the bottom
mean, with higher-is-better as the default when either group is empty.  The
inference is a function of the leaderboard alone (no queried score occurs
in it). -/
theorem higherIsBetter_eq_specDirection (lb : Leaderboard) :
    higherIsBetter lb = specDirection lb := by
  by_cases h1 : (sortByRank lb).take 10 = []
  · have h2 : sortByRank lb = [] := by
      cases hsl : sortByRank lb with
      | nil => rfl
      | cons a l => rw [hsl] at h1; simp [List.take_succ_cons] at h1
    simp [higherIsBetter, specDirection, topScores, botScores, pandasHead,
      pandasTail, lbScores, h2]
  · have hlen1 : 0 < ((sortByRank lb).take 10).length := List.length_pos.mpr h1
    have hsl : sortByRank lb ≠ [] := by
      intro hh
      rw [hh] at h1
      exact h1 rfl
    have hlen2 :
        0 < ((sortByRank lb).drop ((sortByRank lb).length - 10)).length := by
      rw [List.length_drop]
      have := List.length_pos.mpr hsl
      omega
    have h2 := List.length_pos.mp hlen2
    rw [higherIsBetter, specDirection]
    simp only [topScores, botScores, pandasHead, pandasTail, lbScores,
      List.length_map]
    rw [if_pos ⟨hlen1, hlen2⟩]
    have he1 : ((sortByRank lb).take 10).isEmpty = false := by
      simpa [List.isEmpty_iff] using h1
    have he2 :
        ((sortByRank lb).drop ((sortByRank lb).length - 10)).isEmpty = false := by
      simpa [List.isEmpty_iff] using h2
    rw [he1, he2]
    simp only [Bool.or_self, Bool.false_eq_true, if_false]
    by_cases hc :
        listMean (((sortByRank lb).take 10).map Prod.snd) >
          listMean (((sortByRank lb).drop ((sortByRank lb).length - 10)).map
            Prod.snd)
    · simp [hc]
    · simp [hc]

/-- Claim C10: For every loaded (hence nonempty) leaderboard with at most 10
rows, the first-10 and last-10 groups used by direction inference are the
same rows, so their means are equal, the strict comparison fails, and
lower-is-better is selected regardless of how scores relate to ranks. -/
theorem small_leaderboard_lower_is_better (lb : Leaderboard)
    (hne : lb ≠ []) (hlen : lb.length ≤ 10) :
    topScores lb = botScores lb ∧ higherIsBetter lb = false := by
  have hslen : (sortByRank lb).length = lb.length := sortByRank_length lb
  have htake : (sortByRank lb).take 10 = sortByRank lb :=
    List.take_of_length_le (by omega)
  have hdrop :
      (sortByRank lb).drop ((sortByRank lb).length - 10) = sortByRank lb := by
    have h0 : (sortByRank lb).length - 10 = 0 := by omega
    rw [h0, List.drop_zero]
  have heq : topScores lb = botScores lb := by
    simp [topScores, botScores, pandasHead, pandasTail, htake, hdrop]
  refine ⟨heq, ?_⟩
  have hpos : 0 < (topScores lb).length := by
    have hl := List.length_pos.mpr hne
    simp [topScores, pandasHead, lbScores, htake, List.length_map]
    omega
  rw [higherIsBetter, if_pos ⟨hpos, by rw [← heq]; exact hpos⟩,
    if_neg (by rw [heq]; exact lt_irrefl _)]

theorem small_leaderboard_lower_is_better_w :
    topScores [((1 : ℚ), (5 : ℚ))] = botScores [((1 : ℚ), (5 : ℚ))] ∧
    higherIsBetter [((1 : ℚ), (5 : ℚ))] = false :=
  small_leaderboard_lower_is_better _ (by simp) (by simp)

/-! ## Claims about the percentile calculator -/

/-- Claim C1: For every leaderboard with at least one numeric score and every
(finite) numeric input score, `calculate_percentile` returns exactly the
spec's formula: the clamp into [1,100] of the half-to-even rounding of
`max(0, P - 1)` when higher-is-better and of `100 - P` when
lower-is-better, where `P = percentileofscore(scores, our_score, 'rank')`;
in particular the result is an integer in the closed range [1, 100]. -/
theorem calculate_percentile_eq_spec (lb : Leaderboard) (x : ℚ)
    (hne : lb ≠ []) :
    calculate_percentile x lb =
      some (specResult (lbScores lb) x (higherIsBetter lb)) ∧
    1 ≤ specResult (lbScores lb) x (higherIsBetter lb) ∧
    specResult (lbScores lb) x (higherIsBetter lb) ≤ 100 := by
  have hlen0 : (lbScores lb).length ≠ 0 := by
    simp only [lbScores, List.length_map, ne_eq, List.length_eq_zero]
    exact hne
  refine ⟨?_, le_max_left _ _, max_le (by norm_num) (min_le_left _ _)⟩
  rw [calculate_percentile, if_neg hlen0]
  rfl

theorem calculate_percentile_eq_spec_w :
    calculate_percentile (1/2) [((1 : ℚ), (1 : ℚ))] =
      some (specResult (lbScores [((1 : ℚ), (1 : ℚ))]) (1/2)
        (higherIsBetter [((1 : ℚ), (1 : ℚ))])) ∧
    1 ≤ specResult (lbScores [((1 : ℚ), (1 : ℚ))]) (1/2)
        (higherIsBetter [((1 : ℚ), (1 : ℚ))]) ∧
    specResult (lbScores [((1 : ℚ), (1 : ℚ))]) (1/2)
        (higherIsBetter [((1 : ℚ), (1 : ℚ))]) ≤ 100 :=
  calculate_percentile_eq_spec _ _ (by simp)

/-- A 20-row leaderboard with ranks 1..20 and scores 20..1: scores decrease
with rank, so every top-10-by-rank score exceeds every bottom-10-by-rank
score. -/
def lb20 : Leaderboard :=
  [(1, 20), (2, 19), (3, 18), (4, 17), (5, 16), (6, 15), (7, 14), (8, 13),
   (9, 12), (10, 11), (11, 10), (12, 9), (13, 8), (14, 7), (15, 6), (16, 5),
   (17, 4), (18, 3), (19, 2), (20, 1)]

/-- Claim C2, counterexample: On `lb20` every top-10-by-rank score exceeds
every bottom-10-by-rank score and the input score 1000 is strictly greater
than every leaderboard score, yet the percentile returned is 99, not the
claimed 100 (the code subtracts one percentage point before rounding). -/
theorem direction_monotone_cex :
    (∀ a ∈ topScores lb20, ∀ b ∈ botScores lb20, b < a) ∧
    (∀ s ∈ lbScores lb20, s < 1000) ∧
    calculate_percentile 1000 lb20 ≠ some 100 ∧
    calculate_percentile 1000 lb20 = some 99 := by
  have h99 : calculate_percentile 1000 lb20 = some 99 := by
    norm_num [calculate_percentile, higherIsBetter, topScores, botScores,
      lbScores, lb20, sortByRank, insertByRank, pandasHead, pandasTail,
      listMean, percentileofscore, pythonRound, List.countP_cons]
  refine ⟨?_, ?_, ?_, h99⟩
  · norm_num [topScores, botScores, lbScores, lb20, sortByRank, insertByRank,
      pandasHead, pandasTail]
  · norm_num [lbScores, lb20]
  · rw [h99]
    simp

/-- Claim C2, amended: For every nonempty leaderboard in which all
top-10-by-rank scores exceed all bottom-10-by-rank scores, higher-is-better
is selected; an input score strictly greater than every leaderboard score
then yields percentile 99 — the maximum the code can produce, since it
subtracts one percentage point before rounding — and an input score
strictly less than every leaderboard score yields the minimum, 1. -/
theorem direction_monotone_amended (lb : Leaderboard) (hne : lb ≠ [])
    (hsep : ∀ a ∈ topScores lb, ∀ b ∈ botScores lb, b < a) :
    higherIsBetter lb = true ∧
    (∀ x : ℚ, (∀ s ∈ lbScores lb, s < x) →
      calculate_percentile x lb = some 99) ∧
    (∀ y : ℚ, (∀ s ∈ lbScores lb, y < s) →
      calculate_percentile y lb = some 1) := by
  have hlb : 0 < lb.length := List.length_pos.mpr hne
  have htpos : 0 < (topScores lb).length := by
    simp only [topScores, pandasHead, lbScores, List.length_map,
      List.length_take, sortByRank_length]
    exact lt_min_iff.mpr ⟨by norm_num, hlb⟩
  have hbpos : 0 < (botScores lb).length := by
    simp only [botScores, pandasTail, lbScores, List.length_map,
      List.length_drop, sortByRank_length]
    omega
  have htne : topScores lb ≠ [] := List.length_pos.mp htpos
  have hbne : botScores lb ≠ [] := List.length_pos.mp hbpos
  have hmean : listMean (botScores lb) < listMean (topScores lb) := by
    have hub : ∀ a ∈ topScores lb, listMean (botScores lb) < a := by
      intro a ha
      exact listMean_lt hbne (fun b hb => hsep a ha b hb)
    exact lt_listMean htne hub
  have hib : higherIsBetter lb = true := by
    rw [higherIsBetter, if_pos ⟨htpos, hbpos⟩, if_pos hmean]
  have hlen0 : (lbScores lb).length ≠ 0 := by
    simp only [lbScores, List.length_map, ne_eq, List.length_eq_zero]
    exact hne
  have hnQ : (((lbScores lb).length : ℕ) : ℚ) ≠ 0 := Nat.cast_ne_zero.mpr hlen0
  refine ⟨hib, ?_, ?_⟩
  · intro x hx
    have hleft : (lbScores lb).countP (fun s => decide (s < x)) =
        (lbScores lb).length :=
      List.countP_eq_length.mpr (fun s hs => decide_eq_true (hx s hs))
    have hright : (lbScores lb).countP (fun s => decide (s ≤ x)) =
        (lbScores lb).length :=
      List.countP_eq_length.mpr (fun s hs => decide_eq_true (hx s hs).le)
    have hP : percentileofscore (lbScores lb) x = 100 := by
      rw [percentileofscore]
      simp only [hleft, hright, lt_irrefl, if_false]
      field_simp
      ring
    rw [calculate_percentile, if_neg hlen0]
    simp only [hib, if_true, hP]
    norm_num [pythonRound]
  · intro y hy
    have hleft : (lbScores lb).countP (fun s => decide (s < y)) = 0 :=
      List.countP_eq_zero.mpr
        (fun s hs => by simpa using not_lt.mpr (hy s hs).le)
    have hright : (lbScores lb).countP (fun s => decide (s ≤ y)) = 0 :=
      List.countP_eq_zero.mpr
        (fun s hs => by simpa using not_le.mpr (hy s hs))
    have hP : percentileofscore (lbScores lb) y = 0 := by
      rw [percentileofscore]
      simp only [hleft, hright, lt_irrefl, if_false]
      norm_num
    rw [calculate_percentile, if_neg hlen0]
    simp only [hib, if_true, hP]
    norm_num [pythonRound]

theorem direction_monotone_amended_w :
    higherIsBetter lb20 = true ∧
    calculate_percentile 1000 lb20 = some 99 ∧
    calculate_percentile (-5) lb20 = some 1 := by
  have hsep : ∀ a ∈ topScores lb20, ∀ b ∈ botScores lb20, b < a := by
    norm_num [topScores, botScores, lbScores, lb20, sortByRank, insertByRank,
      pandasHead, pandasTail]
  have h := direction_monotone_amended lb20 (by simp [lb20]) hsep
  exact ⟨h.1, h.2.1 1000 (by norm_num [lbScores, lb20]),
    h.2.2 (-5) (by norm_num [lbScores, lb20])⟩

/-! ## Claims about the leaderboard loader -/

theorem toNumericCoerce_ne_nan {c : Cell} {f : PyFloat}
    (h : toNumericCoerce c = some f) : f ≠ PyFloat.nan := by
  intro hf
  subst hf
  cases c with
  | blank => simp [toNumericCoerce] at h
  | num g =>
    rw [toNumericCoerce] at h
    by_cases hg : g == PyFloat.nan
    · simp [hg] at h
    · simp only [hg, Bool.false_eq_true, if_false, Option.some.injEq] at h
      rw [h] at hg
      simp at hg
  | text s =>
    rw [toNumericCoerce] at h
    rcases hp : pythonFloat (pyStrip s) with _ | g
    · simp [hp] at h
    · rw [hp] at h
      by_cases hg : g == PyFloat.nan
      · simp [hg] at h
      · simp only [hg, Bool.false_eq_true, if_false, Option.some.injEq] at h
        rw [h] at hg
        simp at hg
  | date y m d => simp [toNumericCoerce] at h

/-- Claim C7, counterexample: A row whose rank cell is the non-numeric text
"abc" (with a numeric score) survives loading, contradicting the claim that
every entry with a non-numeric rank is discarded: the code only drops rows
whose rank is missing (`dropna(subset=['Rank'])`), never coercing ranks. -/
theorem loader_nonnumeric_rank_cex :
    load_leaderboard
        ⟨true, true, [(Cell.text (("abc".data)), Cell.num (PyFloat.finite 1))]⟩ =
      some [(Cell.text (("abc".data)), PyFloat.finite 1)] ∧
    toNumericCoerce (Cell.text (("abc".data))) = none :=
  ⟨rfl, by decide⟩

/-- Claim C7, amended: The leaderboard loader discards every entry whose
rank is missing or whose score is missing or non-numeric (an entry whose
rank is present but non-numeric text is retained), discards a whole
leaderboard when zero entries survive (returning nothing rather than
failing), and every retained entry of every loaded leaderboard has a
present rank and a numeric (non-NaN) score coming from some raw row. -/
theorem load_leaderboard_amended (raw : RawLeaderboard)
    (lb : List (Cell × PyFloat)) (h : load_leaderboard raw = some lb) :
    lb ≠ [] ∧
    (∀ e ∈ lb, cellIsNA e.1 = false ∧ e.2 ≠ PyFloat.nan ∧
      ∃ p ∈ raw.rows, p.1 = e.1 ∧ toNumericCoerce p.2 = some e.2) ∧
    (∀ p ∈ raw.rows, cellIsNA p.1 = false →
      ∀ f, toNumericCoerce p.2 = some f → (p.1, f) ∈ lb) := by
  rw [load_leaderboard] at h
  by_cases hr : raw.hasRankCol = true
  swap
  · simp [hr] at h
  by_cases hs : raw.hasScoreCol = true
  swap
  · simp [hr, hs] at h
  simp only [hr, hs, Bool.not_true, Bool.false_eq_true, if_false] at h
  set survivors := (raw.rows.filter (fun p => !cellIsNA p.1)).filterMap
    (fun p => (toNumericCoerce p.2).map (fun f => (p.1, f))) with hsurv
  by_cases hz : survivors.length = 0
  · simp [hz] at h
  · rw [if_neg hz, Option.some.injEq] at h
    subst h
    refine ⟨fun hnil => hz (by rw [hnil]; rfl), ?_, ?_⟩
    · intro e he
      rcases List.mem_filterMap.mp he with ⟨p, hpmem, hpe⟩
      rcases Option.map_eq_some'.mp hpe with ⟨f, hf, hpf⟩
      rcases List.mem_filter.mp hpmem with ⟨hprows, hpna⟩
      have hna : cellIsNA p.1 = false := by simpa using hpna
      refine ⟨?_, ?_, p, hprows, ?_, ?_⟩
      · rw [← hpf]
        exact hna
      · rw [← hpf]
        exact toNumericCoerce_ne_nan hf
      · rw [← hpf]
      · rw [← hpf]
        exact hf
    · intro p hp hna f hf
      refine List.mem_filterMap.mpr ⟨p, List.mem_filter.mpr ⟨hp, by simp [hna]⟩, ?_⟩
      rw [hf]
      rfl

/-- A well-formed one-row raw leaderboard used to instantiate the amended
loader claim. -/
def raw1 : RawLeaderboard :=
  ⟨true, true, [(Cell.num (PyFloat.finite 1), Cell.num (PyFloat.finite 2))]⟩

theorem load_leaderboard_amended_w :
    ([(Cell.num (PyFloat.finite 1), PyFloat.finite 2)] :
        List (Cell × PyFloat)) ≠ [] ∧
    (∀ e ∈ [(Cell.num (PyFloat.finite 1), PyFloat.finite 2)],
      cellIsNA e.1 = false ∧ e.2 ≠ PyFloat.nan ∧
      ∃ p ∈ raw1.rows, p.1 = e.1 ∧ toNumericCoerce p.2 = some e.2) ∧
    (∀ p ∈ raw1.rows, cellIsNA p.1 = false →
      ∀ f, toNumericCoerce p.2 = some f →
        (p.1, f) ∈ [(Cell.num (PyFloat.finite 1), PyFloat.finite 2)]) :=
  load_leaderboard_amended raw1 _ rfl

/-! ## Claims about the row/column sweep -/

theorem processCells_length (lb : Leaderboard) (e : ℕ) :
    ∀ (cs : List Cell) (j : ℕ), (processCells lb e j cs).length = cs.length := by
  intro cs
  induction cs with
  | nil => intro j; rfl
  | cons c cs ih => intro j; simp [processCells, ih]

theorem processCells_get? (lb : Leaderboard) (e : ℕ) :
    ∀ (cs : List Cell) (j0 j : ℕ),
      (processCells lb e j0 cs).get? j =
        (cs.get? j).map (fun c =>
          if start_col ≤ j0 + j ∧ j0 + j ≤ e then processCell lb c else c) := by
  intro cs
  induction cs with
  | nil => intro j0 j; simp [processCells]
  | cons c cs ih =>
    intro j0 j
    cases j with
    | zero => simp [processCells]
    | succ j =>
      simp only [processCells, List.get?_cons_succ]
      rw [ih (j0 + 1) j]
      have hidx : j0 + 1 + j = j0 + (j + 1) := by omega
      rw [hidx]

theorem sweepRows_length (lbs : List (PyStr × Leaderboard)) (e : ℕ) :
    ∀ (rows : List (List Cell)) (idx : ℕ),
      ((sweepRows lbs e idx rows).1).length = rows.length := by
  intro rows
  induction rows with
  | nil => intro idx; rfl
  | cons r rest ih => intro idx; simp [sweepRows, ih]

theorem sweepRows_fst_get? (lbs : List (PyStr × Leaderboard)) (e : ℕ) :
    ∀ (rows : List (List Cell)) (idx i : ℕ),
      ((sweepRows lbs e idx rows).1).get? i =
        (rows.get? i).map (fun row =>
          if idx + i < 2 then row else (processRow lbs e row).1) := by
  intro rows
  induction rows with
  | nil => intro idx i; simp [sweepRows]
  | cons r rest ih =>
    intro idx i
    cases i with
    | zero =>
      simp only [sweepRows, List.get?_cons_zero, Nat.add_zero, Option.map_some']
      by_cases h : idx < 2 <;> simp [h]
    | succ i =>
      simp only [sweepRows, List.get?_cons_succ]
      rw [ih (idx + 1) i]
      have hidx : idx + 1 + i = idx + (i + 1) := by omega
      rw [hidx]

/-- Claim C8: The sweep overwrites a data cell only when both score parsing
and percentile computation succeed; every cell where either fails, the two
header rows, and every column outside the fixed result-column range keep
their original value, and the table's dimensions are preserved. -/
theorem sweep_frame (lbs : List (PyStr × Leaderboard))
    (table : List (List Cell)) :
    ((convert_scores_to_percentiles lbs table).1).length = table.length ∧
    (∀ i, i < 2 →
      ((convert_scores_to_percentiles lbs table).1).get? i = table.get? i) ∧
    (∀ i row, table.get? i = some row →
      ∃ row', ((convert_scores_to_percentiles lbs table).1).get? i = some row' ∧
        row'.length = row.length ∧
        ∀ j c, row.get? j = some c →
          ∃ c', row'.get? j = some c' ∧
            (c' = c ∨
              (2 ≤ i ∧ start_col ≤ j ∧ j ≤ resultEndCol table ∧
               ∃ k lb f p,
                 competitionKey (row.getD 4 Cell.blank) = some k ∧
                 lbs.lookup k = some lb ∧
                 parse_score_value c = some f ∧ calcPF f lb = some p ∧
                 c' = Cell.num (PyFloat.finite (p : ℚ))))) := by
  refine ⟨sweepRows_length lbs _ table 0, ?_, ?_⟩
  · intro i hi
    rw [convert_scores_to_percentiles, sweepRows_fst_get?]
    cases ht : table.get? i with
    | none => simp [ht]
    | some row => simp [ht, hi]
  · intro i row hrow
    rw [convert_scores_to_percentiles, sweepRows_fst_get?, hrow]
    by_cases hi : i < 2
    · refine ⟨row, by simp [hi], rfl, ?_⟩
      intro j c hc
      exact ⟨c, hc, Or.inl rfl⟩
    · simp only [Option.map_some', Nat.zero_add, hi, if_false]
      cases hk : competitionKey (row.getD 4 Cell.blank) with
      | none =>
        refine ⟨row, ?_, rfl, fun j c hc => ⟨c, hc, Or.inl rfl⟩⟩
        simp only [processRow]
        rw [hk]
      | some k =>
        cases hl : lbs.lookup k with
        | none =>
          refine ⟨row, ?_, rfl, fun j c hc => ⟨c, hc, Or.inl rfl⟩⟩
          simp only [processRow]
          rw [hk]
          simp only [hl]
        | some lb =>
          refine ⟨processCells lb (resultEndCol table) 0 row, ?_,
            processCells_length _ _ _ _, ?_⟩
          · simp only [processRow]
            rw [hk]
            simp only [hl]
          · intro j c hc
            rw [processCells_get? lb _ row 0 j, hc]
            simp only [Option.map_some', Nat.zero_add]
            by_cases hrange : start_col ≤ j ∧ j ≤ resultEndCol table
            · rw [if_pos hrange]
              refine ⟨processCell lb c, rfl, ?_⟩
              cases hp : parse_score_value c with
              | none => exact Or.inl (by simp [processCell, hp])
              | some f =>
                cases hcf : calcPF f lb with
                | none => exact Or.inl (by simp [processCell, hp, hcf])
                | some p =>
                  exact Or.inr ⟨by omega, hrange.1, hrange.2, k, lb, f, p,
                    rfl, hl, rfl, hcf, by simp [processCell, hp, hcf]⟩
            · rw [if_neg hrange]
              exact ⟨c, rfl, Or.inl rfl⟩

/-- A data row whose competition cell (column index 4) holds the text
"X". -/
def demoRow : List Cell :=
  [Cell.blank, Cell.blank, Cell.blank, Cell.blank, Cell.text (("X".data))]

/-- A minimal table: two header rows followed by one data row. -/
def demoTable : List (List Cell) := [[], [], demoRow]

theorem sweep_frame_w :
    ∃ row', ((convert_scores_to_percentiles [] demoTable).1).get? 2 = some row' ∧
      row'.length = demoRow.length ∧
      ∀ j c, demoRow.get? j = some c →
        ∃ c', row'.get? j = some c' ∧
          (c' = c ∨
            (2 ≤ 2 ∧ start_col ≤ j ∧ j ≤ resultEndCol demoTable ∧
             ∃ k lb f p,
               competitionKey (demoRow.getD 4 Cell.blank) = some k ∧
               ([] : List (PyStr × Leaderboard)).lookup k = some lb ∧
               parse_score_value c = some f ∧ calcPF f lb = some p ∧
               c' = Cell.num (PyFloat.finite (p : ℚ)))) :=
  (sweep_frame [] demoTable).2.2 2 demoRow rfl

theorem processRow_missing (lbs : List (PyStr × Leaderboard)) (e : ℕ)
    (row : List Cell) (k : PyStr)
    (hkey : competitionKey (row.getD 4 Cell.blank) = some k)
    (hmiss : lbs.lookup k = none) :
    processRow lbs e row = (row, [LogEvent.missingLeaderboard k]) := by
  simp only [processRow]
  rw [hkey]
  simp only [hmiss]

theorem sweepRows_missing_count (lbs : List (PyStr × Leaderboard)) (e : ℕ)
    (k : PyStr) (hmiss : lbs.lookup k = none) :
    ∀ (rows : List (List Cell)) (idx : ℕ), 2 ≤ idx →
      ((sweepRows lbs e idx rows).2).count (LogEvent.missingLeaderboard k) =
        (rows.filter (fun r =>
          competitionKey (r.getD 4 Cell.blank) == some k)).length := by
  intro rows
  induction rows with
  | nil => intro idx hidx; rfl
  | cons r rest ih =>
    intro idx hidx
    have hrec := ih (idx + 1) (by omega)
    simp only [sweepRows]
    rw [if_neg (by omega : ¬ idx < 2), List.count_append, hrec,
      List.filter_cons]
    cases hk : competitionKey (r.getD 4 Cell.blank) with
    | none =>
      have hpr : processRow lbs e r = (r, []) := by
        simp only [processRow]
        rw [hk]
      rw [hpr]
      simp only [hk]
      simp
    | some k2 =>
      by_cases hkk : k2 = k
      · subst hkk
        rw [processRow_missing lbs e r k2 hk hmiss]
        simp only [hk]
        simp [List.count_cons]
        omega
      · cases hl : lbs.lookup k2 with
        | none =>
          rw [processRow_missing lbs e r k2 hk hl]
          simp only [hk]
          simp [List.count_cons, hkk]
        | some lb =>
          have hpr : processRow lbs e r = (processCells lb e 0 r, []) := by
            simp only [processRow]
            rw [hk]
            simp only [hl]
          rw [hpr]
          simp only [hk]
          simp [hkk]

theorem sweepRows_two_headers (lbs : List (PyStr × Leaderboard)) (e : ℕ)
    (r0 r1 : List Cell) (rest : List (List Cell)) :
    (sweepRows lbs e 0 (r0 :: r1 :: rest)).2 = (sweepRows lbs e 2 rest).2 := by
  simp [sweepRows]

/-- Claim C9, amended: A data row whose competition identifier has no loaded
leaderboard is left entirely unchanged, row processing continues (later rows
are still processed), and exactly one warning naming that competition is
emitted for each such row — not one per column, but also not one per run:
across a run the warning count for a missing competition equals the number
of data rows naming it. -/
theorem missing_leaderboard_row (lbs : List (PyStr × Leaderboard))
    (table : List (List Cell)) (i : ℕ) (row : List Cell) (k : PyStr)
    (h2 : 2 ≤ i) (hrow : table.get? i = some row)
    (hkey : competitionKey (row.getD 4 Cell.blank) = some k)
    (hmiss : lbs.lookup k = none) :
    ((convert_scores_to_percentiles lbs table).1).get? i = some row ∧
    (processRow lbs (resultEndCol table) row).2 =
      [LogEvent.missingLeaderboard k] ∧
    ((convert_scores_to_percentiles lbs table).2).count
        (LogEvent.missingLeaderboard k) =
      ((table.drop 2).filter (fun r =>
        competitionKey (r.getD 4 Cell.blank) == some k)).length := by
  refine ⟨?_, ?_, ?_⟩
  · rw [convert_scores_to_percentiles, sweepRows_fst_get?, hrow]
    have hni : ¬ (0 + i < 2) := by omega
    simp only [Option.map_some', hni, if_false]
    rw [processRow_missing lbs _ row k hkey hmiss]
  · rw [processRow_missing lbs _ row k hkey hmiss]
  · rw [convert_scores_to_percentiles]
    cases table with
    | nil => simp at hrow
    | cons r0 rest0 =>
      cases rest0 with
      | nil =>
        have hnone : ([r0] : List (List Cell)).get? i = none := by
          rw [List.get?_eq_none]
          simp
          omega
        rw [hnone] at hrow
        exact absurd hrow (by simp)
      | cons r1 rest =>
        rw [sweepRows_two_headers,
          sweepRows_missing_count lbs _ k hmiss rest 2 (by norm_num)]
        simp [List.drop]

/-- A table with two header rows and two data rows naming the same
competition "X" with no loaded leaderboard. -/
def demoTable2 : List (List Cell) := [[], [], demoRow, demoRow]

/-- Claim C9, counterexample: With two data rows naming the same missing
competition "X", the run emits two warnings for that competition — one per
row — not the claimed single warning per run. -/
theorem one_warning_per_run_cex :
    ((convert_scores_to_percentiles [] demoTable2).2).count
        (LogEvent.missingLeaderboard (("X".data))) ≠ 1 ∧
    ((convert_scores_to_percentiles [] demoTable2).2).count
        (LogEvent.missingLeaderboard (("X".data))) = 2 :=
  ⟨by decide, by decide⟩

theorem missing_leaderboard_row_w :
    ((convert_scores_to_percentiles [] demoTable).1).get? 2 = some demoRow ∧
    (processRow [] (resultEndCol demoTable) demoRow).2 =
      [LogEvent.missingLeaderboard (("X".data))] ∧
    ((convert_scores_to_percentiles [] demoTable).2).count
        (LogEvent.missingLeaderboard (("X".data))) =
      ((demoTable.drop 2).filter (fun r =>
        competitionKey (r.getD 4 Cell.blank) == some (("X".data)))).length :=
  missing_leaderboard_row [] demoTable 2 demoRow (("X".data))
    (by norm_num) rfl (by decide) rfl
